import Mathlib

/-!
Shallow embedding of the OCR plugin in `src/main.ts` (Obsidian OCR plugin):
the incremental change-detection / deduplication engine, the OCR text
post-processing, the write-back step, and the two manual commands.

Strings are modelled as `List Char` internally (Lean `String` wrappers are
provided where the source API works on strings).  JavaScript semantics that
matter here are modelled explicitly:

* `String.prototype.replace(pattern, replacement)` with a *string* pattern
  replaces only the first occurrence and interprets `$$`, `$&`, `` $` ``,
  `$'` in the replacement (`jsReplaceFirst` below);
* regex `.` does not match the line terminators U+000A, U+000D, U+2028,
  U+2029 (`isLineTerm`);
* regex `\s` and `String.prototype.trim` use the JS whitespace set
  (`isJSWS`).
-/

namespace OCR

/-- JS line terminators: the characters regex `.` does not match. -/
def isLineTerm (c : Char) : Bool :=
  c.val = 0x000A || c.val = 0x000D || c.val = 0x2028 || c.val = 0x2029

/-- JS whitespace (the set matched by regex `\s` and removed by `trim`). -/
def isJSWS (c : Char) : Bool :=
  c.val = 0x0009 || c.val = 0x000A || c.val = 0x000B || c.val = 0x000C ||
  c.val = 0x000D || c.val = 0x0020 || c.val = 0x00A0 || c.val = 0x1680 ||
  (0x2000 ≤ c.val && c.val ≤ 0x200A) || c.val = 0x2028 || c.val = 0x2029 ||
  c.val = 0x202F || c.val = 0x205F || c.val = 0x3000 || c.val = 0xFEFF

/-- JS `String.prototype.trim` on a char list: drop whitespace at both ends. -/
def trim (l : List Char) : List Char :=
  ((l.dropWhile isJSWS).reverse.dropWhile isJSWS).reverse

/-- Scan for a closing occurrence of `stop` on the current line: models the
lazy body of regexes such as `\$(.*?)\$` and `\((.*?)\)` — `.` cannot cross a
line terminator.  Returns the characters before the stop and the rest. -/
def findStop (stop : Char) : List Char → Option (List Char × List Char)
  | [] => none
  | c :: r =>
    if c = stop then some ([], r)
    else if isLineTerm c then none
    else
      match findStop stop r with
      | some (a, r2) => some (c :: a, r2)
      | none => none

/-- First pass of `removeBlanks` (main.ts line 336) with explicit fuel
(any fuel at least the list length gives the same result):
`result.replace(/\$(.*?)\$/g, (_match, p1) => `$` + p1.trim() + `$`)` —
each same-line `$...$` pair has its inner content trimmed. -/
def trimDollarsF : Nat → List Char → List Char
  | 0, l => l
  | _ + 1, [] => []
  | fuel + 1, c :: rest =>
    if c = '$' then
      match findStop '$' rest with
      | some (inner, rest2) => '$' :: (trim inner ++ '$' :: trimDollarsF fuel rest2)
      | none => '$' :: trimDollarsF fuel rest
    else c :: trimDollarsF fuel rest

/-- First pass of `removeBlanks`: the fuel is the list length, which every
step stays below. -/
def trimDollars (l : List Char) : List Char :=
  trimDollarsF l.length l

/-- Second pass (main.ts line 338): `replace(/\\\[/g, '$$$')` — every `\[`
becomes `$$` (in a JS replacement string `$$$` denotes `$` + literal `$`). -/
def repOpenBracket : List Char → List Char
  | '\\' :: '[' :: rest => '$' :: '$' :: repOpenBracket rest
  | c :: rest => c :: repOpenBracket rest
  | [] => []

/-- Third pass (main.ts line 338): `replace(/\\\]/g, '$$$')` — every `\]`
becomes `$$`. -/
def repCloseBracket : List Char → List Char
  | '\\' :: ']' :: rest => '$' :: '$' :: repCloseBracket rest
  | c :: rest => c :: repCloseBracket rest
  | [] => []

/-- Fourth pass (main.ts line 340): `replace(/\\\(\s/g, '$$')` — `\(`
followed by one whitespace character becomes `$` (the whitespace is
consumed). -/
def repOpenParenWSF : Nat → List Char → List Char
  | 0, l => l
  | _ + 1, [] => []
  | fuel + 1, '\\' :: '(' :: c :: rest =>
    if isJSWS c then '$' :: repOpenParenWSF fuel rest
    else '\\' :: repOpenParenWSF fuel ('(' :: c :: rest)
  | fuel + 1, c :: rest => c :: repOpenParenWSF fuel rest

/-- Fourth pass wrapper: the fuel is the list length, which every step
stays below. -/
def repOpenParenWS (l : List Char) : List Char :=
  repOpenParenWSF l.length l

/-- Fifth pass (main.ts line 340): `replace(/\s\\\)/g, '$$')` — one
whitespace character followed by `\)` becomes `$`. -/
def repWSCloseParenF : Nat → List Char → List Char
  | 0, l => l
  | _ + 1, [] => []
  | fuel + 1, c :: '\\' :: ')' :: rest =>
    if isJSWS c then '$' :: repWSCloseParenF fuel rest
    else c :: repWSCloseParenF fuel ('\\' :: ')' :: rest)
  | fuel + 1, c :: rest => c :: repWSCloseParenF fuel rest

/-- Fifth pass wrapper: the fuel is the list length, which every step
stays below. -/
def repWSCloseParen (l : List Char) : List Char :=
  repWSCloseParenF l.length l

/-- Sixth pass (main.ts line 341): `replace(/\\\(/g, '$$')` — every
remaining `\(` becomes `$`. -/
def repOpenParen : List Char → List Char
  | '\\' :: '(' :: rest => '$' :: repOpenParen rest
  | c :: rest => c :: repOpenParen rest
  | [] => []

/-- Seventh pass (main.ts line 341): `replace(/\\\)/g, '$$')` — every
remaining `\)` becomes `$`. -/
def repCloseParen : List Char → List Char
  | '\\' :: ')' :: rest => '$' :: repCloseParen rest
  | c :: rest => c :: repCloseParen rest
  | [] => []

/-- `removeBlanks` (main.ts lines 334-343): the OCR post-processing
normalization, as the composition of the seven global replacements in
source order. -/
def removeBlanksL (l : List Char) : List Char :=
  repCloseParen (repOpenParen (repWSCloseParen (repOpenParenWS
    (repCloseBracket (repOpenBracket (trimDollars l))))))

/-- `removeBlanks` on Lean strings. -/
def removeBlanks (s : String) : String :=
  ⟨removeBlanksL s.data⟩

/-- Is the character one of the four bracket characters a backslash turns
into a source-format delimiter? -/
def isBracket (d : Char) : Bool :=
  d = '[' || d = ']' || d = '(' || d = ')'

/-- Does a source-format delimiter start right here: is the current
character a backslash followed by a bracket character? -/
def headDelim (c : Char) (rest : List Char) : Bool :=
  c = '\\' &&
    match rest with
    | d :: _ => isBracket d
    | [] => false

/-- Does the text contain one of the four source-format delimiters `\[`,
`\]`, `\(`, `\)` that `removeBlanks` converts? -/
def hasDelim : List Char → Bool
  | [] => false
  | c :: rest => headDelim c rest || hasDelim rest

/-! ## The write-back step

`editor.getValue().replace(result.imageLink, result.ocrText)` (main.ts line
217) and `newContent.replace(result.imageLink, result.ocrText)` (line 451)
use JS `String.prototype.replace` with a *string* search value: only the
first occurrence is replaced, and the replacement string is interpreted for
the substitution patterns `$$`, `$&`, `` $` `` and `$'`. -/

/-- Does `l` start with `pat`? -/
def startsWith : List Char → List Char → Bool
  | [], _ => true
  | _ :: _, [] => false
  | p :: ps, c :: cs => p = c && startsWith ps cs

/-- Split `l` at the first occurrence of the (non-empty) pattern `pat`:
returns `(before, after)` with `l = before ++ pat ++ after`. -/
def splitFirst (pat : List Char) : List Char → Option (List Char × List Char)
  | [] => none
  | c :: rest =>
    if startsWith pat (c :: rest) then some ([], (c :: rest).drop pat.length)
    else
      match splitFirst pat rest with
      | some (a, b) => some (c :: a, b)
      | none => none

/-- GetSubstitution: expand the JS replacement patterns in `rep`, where
`matched` is the matched substring, `pre` the text before the match and
`post` the text after it.  `$$` yields `$`; `$&` yields the match;
`` $` `` yields `pre`; `$'` yields `post`; any other `$` is literal. -/
def substDollarF (matched pre post : List Char) : Nat → List Char → List Char
  | 0, l => l
  | _ + 1, [] => []
  | fuel + 1, '$' :: c :: rest =>
    if c = '$' then '$' :: substDollarF matched pre post fuel rest
    else if c = '&' then matched ++ substDollarF matched pre post fuel rest
    else if c = Char.ofNat 96 then pre ++ substDollarF matched pre post fuel rest
    else if c = Char.ofNat 39 then post ++ substDollarF matched pre post fuel rest
    else '$' :: substDollarF matched pre post fuel (c :: rest)
  | fuel + 1, c :: rest => c :: substDollarF matched pre post fuel rest

/-- GetSubstitution wrapper: the fuel is the list length, which every step
stays below. -/
def substDollar (matched pre post rep : List Char) : List Char :=
  substDollarF matched pre post rep.length rep

/-- JS `s.replace(pat, rep)` with string arguments (char-list version). -/
def jsReplaceFirstL (s pat rep : List Char) : List Char :=
  match splitFirst pat s with
  | none => s
  | some (pre, post) => pre ++ substDollar pat pre post rep ++ post

/-- JS `s.replace(pat, rep)` with string arguments. -/
def jsReplaceFirst (s pat rep : String) : String :=
  ⟨jsReplaceFirstL s.data pat.data rep.data⟩

/-! ## The image-reference scanner

`handleEditorChange` (line 194) and `ocrSelectedImage` (line 354) use
`/!\[\[([^\]]+)\]\]|!\[.*?\]\((.*?)\)/`; `ocrAllImagesInNote` (line 427)
uses `/(!\[\[([^\]]+)\]\])|(!\[[^\]]*\]\(([^)]+)\))/`.  A match yields
`(fullMatch, imagePath)` where the path is the wiki group or the
parenthesized target (`match[1] || match[2]`, resp. `match[2] || match[4]`). -/

/-- Match the wiki-embed alternative `!\[\[([^\]]+)\]\]` at the head of `l`:
`![[`, then one or more non-`]` characters, then `]]`.  Returns
`(fullMatch, path, rest)`. -/
def matchWiki : List Char → Option (List Char × List Char × List Char)
  | '!' :: '[' :: '[' :: rest =>
    let run := rest.takeWhile (fun c => c ≠ ']')
    match run, rest.dropWhile (fun c => c ≠ ']') with
    | [], _ => none
    | _ :: _, ']' :: ']' :: rest3 =>
      some ('!' :: '[' :: '[' :: (run ++ [']', ']']), run, rest3)
    | _ :: _, _ => none
  | _ => none

/-- Match the markdown alternative `!\[.*?\]\((.*?)\)` at the head of `l`:
`![`, a lazy same-line run to `](`, then a lazy same-line run to `)`.  The
captured path is the parenthesized target. -/
def matchMdLazy : List Char → Option (List Char × List Char × List Char)
  | '!' :: '[' :: rest =>
    match findBrackParen rest with
    | none => none
    | some (alt, rest2) =>
      match findStop ')' rest2 with
      | none => none
      | some (tgt, rest3) =>
        some ('!' :: '[' :: (alt ++ ']' :: '(' :: (tgt ++ [')'])), tgt, rest3)
  | _ => none
where
  /-- Lazy scan for the two-character sequence `](` on the current line. -/
  findBrackParen : List Char → Option (List Char × List Char)
    | ']' :: '(' :: r => some ([], r)
    | c :: r =>
      if isLineTerm c then none
      else
        match findBrackParen r with
        | some (a, r2) => some (c :: a, r2)
        | none => none
    | [] => none

/-- Match the batch-command markdown alternative `!\[[^\]]*\]\(([^)]+)\)` at
the head of `l`: `![`, any run of non-`]` characters, `](`, a non-empty run
of non-`)` characters, `)`. -/
def matchMdGreedy : List Char → Option (List Char × List Char × List Char)
  | '!' :: '[' :: rest =>
    let alt := rest.takeWhile (fun c => c ≠ ']')
    match rest.dropWhile (fun c => c ≠ ']') with
    | ']' :: '(' :: rest3 =>
      let tgt := rest3.takeWhile (fun c => c ≠ ')')
      match tgt, rest3.dropWhile (fun c => c ≠ ')') with
      | [], _ => none
      | _ :: _, ')' :: rest5 =>
        some ('!' :: '[' :: (alt ++ ']' :: '(' :: (tgt ++ [')'])), tgt, rest5)
      | _ :: _, _ => none
    | _ => none
  | _ => none

/-- One attempt of the change-handler regex at the current position: the
wiki alternative is tried first, then the markdown alternative. -/
def matchAtChange (l : List Char) : Option (List Char × List Char × List Char) :=
  match matchWiki l with
  | some r => some r
  | none => matchMdLazy l

/-- One attempt of the batch-command regex at the current position. -/
def matchAtBatch (l : List Char) : Option (List Char × List Char × List Char) :=
  match matchWiki l with
  | some r => some r
  | none => matchMdGreedy l

/-- Global regex scan: at each position try `matcher`; on a match emit
`(fullMatch, path)` and resume after the match, otherwise advance one
character.  `fuel` bounds the number of steps (every step consumes at least
one character, so `l.length` suffices). -/
def scanAux (matcher : List Char → Option (List Char × List Char × List Char)) :
    Nat → List Char → List (String × String)
  | 0, _ => []
  | _, [] => []
  | fuel + 1, c :: r =>
    match matcher (c :: r) with
    | some (fm, p, rest) => (⟨fm⟩, ⟨p⟩) :: scanAux matcher fuel rest
    | none => scanAux matcher fuel r

/-- All image links found by `handleEditorChange`'s regex, in order. -/
def scanLinks (s : String) : List (String × String) :=
  scanAux matchAtChange s.data.length s.data

/-- All image links found by `ocrAllImagesInNote`'s regex, in order. -/
def scanLinksBatch (s : String) : List (String × String) :=
  scanAux matchAtBatch s.data.length s.data

/-- `selectedText.match(imageLinkRegex)` (main.ts line 355): the first
match of the change-handler regex anywhere in the string. -/
def firstImageLink (s : String) : Option (String × String) :=
  go s.data.length s.data
where
  go : Nat → List Char → Option (String × String)
    | 0, _ => none
    | _, [] => none
    | fuel + 1, c :: r =>
      match matchAtChange (c :: r) with
      | some (fm, p, _) => some (⟨fm⟩, ⟨p⟩)
      | none => go fuel r

/-! ## The text-diff engine

`getAddedText` (main.ts lines 237-248) runs the diff library's `diffChars`
(a character-level longest-common-subsequence diff) and concatenates the
`added` parts in document order. -/

/-- One component of a character diff. -/
inductive DiffPart where
  | eq (s : List Char)
  | added (s : List Char)
  | removed (s : List Char)
deriving DecidableEq

/-- Length of a longest common subsequence of two char lists, with fuel
(any fuel at least the sum of the lengths gives the same result). -/
def lcsLenF : Nat → List Char → List Char → Nat
  | 0, _, _ => 0
  | _ + 1, [], _ => 0
  | _ + 1, _ :: _, [] => 0
  | fuel + 1, a :: o, b :: n =>
    if a = b then lcsLenF fuel o n + 1
    else max (lcsLenF fuel o (b :: n)) (lcsLenF fuel (a :: o) n)

/-- Length of a longest common subsequence of two char lists. -/
def lcsLen (o n : List Char) : Nat :=
  lcsLenF (o.length + n.length) o n

/-- Character-level LCS diff modelling the diff library's `diffChars`, with
fuel: equal leading characters yield an `eq` component; otherwise a removal
or an insertion is emitted according to which keeps a longest common
subsequence. -/
def diffCharsF : Nat → List Char → List Char → List DiffPart
  | 0, _, _ => []
  | _ + 1, [], [] => []
  | _ + 1, [], n => [.added n]
  | _ + 1, o, [] => [.removed o]
  | fuel + 1, a :: o, b :: n =>
    if a = b then .eq [a] :: diffCharsF fuel o n
    else if lcsLen (a :: o) n ≤ lcsLen o (b :: n) then
      .removed [a] :: diffCharsF fuel o (b :: n)
    else .added [b] :: diffCharsF fuel (a :: o) n

/-- Character-level LCS diff modelling the diff library's `diffChars`. -/
def diffChars (o n : List Char) : List DiffPart :=
  diffCharsF (o.length + n.length) o n

/-- Concatenation of the `added` components, in order. -/
def addedOf (parts : List DiffPart) : List Char :=
  match parts with
  | [] => []
  | .added s :: rest => s ++ addedOf rest
  | _ :: rest => addedOf rest

/-- `getAddedText` (main.ts lines 237-248). -/
def getAddedText (oldText newText : String) : String :=
  ⟨addedOf (diffChars oldText.data newText.data)⟩

/-! ## The deduplication ledger

`processedImagesPerNote` (main.ts line 27) maps a note path to the set of
raw tokens already submitted.  It is modelled as an association list whose
values are lists used as sets (only membership matters). -/

/-- The per-note ledger: note path to raw tokens already submitted. -/
def Ledger := List (String × List String)

instance : DecidableEq Ledger := by
  unfold Ledger
  infer_instance

/-- The set of tokens recorded for note `p` (empty if `p` is absent). -/
def lookupSet : Ledger → String → List String
  | [], _ => []
  | (q, s) :: rest, p => if q = p then s else lookupSet rest p

/-- Replace (or create) the set recorded for note `p`. -/
def setSet : Ledger → String → List String → Ledger
  | [], p, s => [(p, s)]
  | (q, t) :: rest, p, s =>
    if q = p then (q, s) :: rest else (q, t) :: setSet rest p s

/-- The check-and-mark step of the change handler (main.ts lines 207-211):
`processedImages.has(fullMatch)` followed, when absent, by
`processedImages.add(fullMatch)`.  Returns whether the token should be
submitted, together with the updated ledger. -/
def checkAndMark (l : Ledger) (p tok : String) : Bool × Ledger :=
  if tok ∈ lookupSet l p then (false, l)
  else (true, setSet l p (tok :: lookupSet l p))

/-- The dedup loop over the scanned matches (main.ts lines 199-224 and
431-443): tokens already in the note's set are skipped, fresh ones are
marked and collected for submission. -/
def dedupFold (l : Ledger) (p : String) :
    List (String × String) → Ledger × List (String × String)
  | [] => (l, [])
  | (fm, ip) :: rest =>
    let step := checkAndMark l p fm
    let rec2 := dedupFold step.2 p rest
    if step.1 then (rec2.1, (fm, ip) :: rec2.2) else (rec2.1, rec2.2)

/-- An arbitrary sequence of further check-and-mark operations applied to a
ledger (how the ledger evolves across later change notifications). -/
def runMarks (l : Ledger) : List (String × String) → Ledger
  | [] => l
  | (p, x) :: rest => runMarks (checkAndMark l p x).2 rest

/-! ## The external collaborators and the asynchronous pipeline -/

/-- The OCR Gateway's response for one image (fetch at main.ts lines
290-310): `ok` is `response.ok`, `text` is `result.text` with a missing
field modelled as the empty string. -/
structure GatewayResponse where
  ok : Bool
  text : String
deriving DecidableEq

/-- The environment: `resolve path attempt` is what
`metadataCache.getFirstLinkpathDest` returns on the given retry attempt
(the resolved file id, if any), and `gateway path` is the OCR service's
response for the image at `path`. -/
structure Env where
  resolve : String → Nat → Option String
  gateway : String → GatewayResponse

/-- The retry loop of `waitForImageFile` with explicit remaining fuel,
starting at the given attempt index. -/
def waitLoop (resolve : Nat → Option String) : Nat → Nat → Option String
  | 0, _ => none
  | fuel + 1, attempt =>
    match resolve attempt with
    | some f => some f
    | none => waitLoop resolve fuel (attempt + 1)

/-- `waitForImageFile` (main.ts lines 273-286): up to `maxRetries = 10`
resolution attempts, returning the first resolved file or `null`. -/
def waitForImageFile (resolve : Nat → Option String) : Option String :=
  waitLoop resolve 10 0

/-- `processImage` (main.ts lines 250-271) together with
`processImageData` (lines 288-322): resolve the file, call the gateway,
post-process.  Returns the user notices it raises and, on success, the
`(imageLink, ocrText)` replacement pair. -/
def processImage (env : Env) (imageLink imagePath : String) :
    List String × Option (String × String) :=
  match waitForImageFile (env.resolve imagePath) with
  | none => (["Unable to find the image file: " ++ imagePath], none)
  | some _ =>
    let resp := env.gateway imagePath
    if resp.ok = false then (["OCR request failed"], none)
    else if resp.text = "" then (["Failed to OCR."], none)
    else ([], some (imageLink, removeBlanks resp.text))

/-! ## The change-reaction controller -/

/-- The plugin's mutable state (main.ts lines 24-28): the auto-OCR toggle,
the number of `editor-change` registrations currently installed, the
per-note ledger, and the baseline snapshot `previousContent`. -/
structure PluginState where
  autoOCRMode : Bool
  listeners : Nat
  processed : Ledger
  previousContent : String
deriving DecidableEq

/-- The state at plugin load. -/
def initialState : PluginState :=
  { autoOCRMode := false, listeners := 0, processed := [], previousContent := "" }

/-- Result of one run of the change handler: the new plugin state, the
document text after all write-backs, the tokens submitted for OCR, and the
user notices raised. -/
structure ChangeResult where
  state : PluginState
  content : String
  submissions : List String
  notices : List String
deriving DecidableEq

/-- `handleEditorChange` (main.ts lines 156-235) for the active note at
`path` whose full text is `current`: ensure the note's set exists, diff
against the baseline, return early when nothing was added, otherwise scan
the added text, submit unseen tokens, apply each successful OCR result to
the live text with a first-occurrence replace, and finally set the baseline
to the resulting text. -/
def handleEditorChange (st : PluginState) (path current : String) (env : Env) :
    ChangeResult :=
  let ledger1 := setSet st.processed path (lookupSet st.processed path)
  let added := getAddedText st.previousContent current
  if added = "" then
    { state := { st with processed := ledger1, previousContent := current },
      content := current, submissions := [], notices := [] }
  else
    let scanned := dedupFold ledger1 path (scanLinks added)
    let results := scanned.2.map (fun m => processImage env m.1 m.2)
    let content2 := results.foldl
      (fun c r =>
        match r.2 with
        | some (link, txt) => jsReplaceFirst c link txt
        | none => c) current
    { state := { st with processed := scanned.1, previousContent := content2 },
      content := content2,
      submissions := scanned.2.map Prod.fst,
      notices := results.foldl (fun acc r => acc ++ r.1) [] }

/-- `toggleAutoOCRMode` (main.ts lines 105-129).  Toggling on registers one
more `editor-change` listener and snapshots the active document (empty
string when none); toggling off calls `stopListeningForChanges` (lines
148-154), which clears the ledger and keeps `previousContent` — note that
no listener registration is removed. -/
def toggleAutoOCRMode (st : PluginState) (activeContent : Option String) :
    PluginState :=
  if st.autoOCRMode = false then
    { st with
      autoOCRMode := true
      listeners := st.listeners + 1
      previousContent := activeContent.getD "" }
  else
    { st with autoOCRMode := false, processed := [] }

/-- Delivery of one `editor-change` notification: every registered
listener runs `handleEditorChange` in turn, each against the text produced
by the previous run (main.ts line 143 registers `handleEditorChange` anew
on every enable and nothing unregisters it). -/
def dispatchEditorChange (st : PluginState) (path current : String) (env : Env) :
    ChangeResult :=
  (List.range st.listeners).foldl
    (fun acc _ =>
      let r := handleEditorChange acc.state path acc.content env
      { state := r.state, content := r.content,
        submissions := acc.submissions ++ r.submissions,
        notices := acc.notices ++ r.notices })
    { state := st, content := current, submissions := [], notices := [] }

/-! ## The manual invocation paths -/

/-- Result of the batch command. -/
structure BatchResult where
  state : PluginState
  content : String
  submissions : List String
  notices : List String
deriving DecidableEq

/-- `ocrAllImagesInNote` (main.ts lines 410-466): scan the whole document
with the batch regex, skip tokens recorded in the note's shared
`processedImagesPerNote` set and mark the rest, submit them, then apply all
successful results to the original content by first-occurrence replaces,
set the editor and the baseline to the result. -/
def ocrAllImagesInNote (st : PluginState) (path content : String) (env : Env) :
    BatchResult :=
  let ledger1 := setSet st.processed path (lookupSet st.processed path)
  let scanned := dedupFold ledger1 path (scanLinksBatch content)
  let results := scanned.2.map (fun m => processImage env m.1 m.2)
  let content2 := results.foldl
    (fun c r =>
      match r.2 with
      | some (link, txt) => jsReplaceFirst c link txt
      | none => c) content
  { state := { st with processed := scanned.1, previousContent := content2 },
    content := content2,
    submissions := scanned.2.map Prod.fst,
    notices := (results.foldl (fun acc r => acc ++ r.1) [])
      ++ ["All images have been processed."] }

/-- Result of the single-selection command: the updated state, the text
substituted for the selection (if any), and the notices raised. -/
structure SelResult where
  state : PluginState
  replaced : Option String
  notices : List String
deriving DecidableEq

/-- `ocrSelectedImage` (main.ts lines 345-408) with the editor text split
as `before ++ sel ++ after` around the selection: validate the selection,
refuse a selection already recorded in the note's shared set, otherwise
mark it, resolve and OCR it, replace the selection on success and set the
baseline to the new full text. -/
def ocrSelectedImage (st : PluginState) (path before sel after : String)
    (env : Env) : SelResult :=
  if sel = "" then
    { state := st, replaced := none, notices := ["Select the link of an image first."] }
  else
    match firstImageLink sel with
    | none => { state := st, replaced := none, notices := ["Invalid image link."] }
    | some (_, imagePath) =>
      let ledger1 := setSet st.processed path (lookupSet st.processed path)
      if sel ∈ lookupSet ledger1 path then
        { state := { st with processed := ledger1 }, replaced := none,
          notices := ["This image has already been processed."] }
      else
        let ledger2 := setSet ledger1 path (sel :: lookupSet ledger1 path)
        match waitForImageFile (env.resolve imagePath) with
        | none =>
          { state := { st with processed := ledger2 }, replaced := none,
            notices := ["Unable to find image file: " ++ imagePath] }
        | some _ =>
          let resp := env.gateway imagePath
          if resp.ok = false then
            { state := { st with processed := ledger2 }, replaced := none,
              notices := ["OCR request failed"] }
          else if resp.text = "" then
            { state := { st with processed := ledger2 }, replaced := none,
              notices := ["Failed to OCR."] }
          else
            let txt := removeBlanks resp.text
            { state :=
                { st with
                  processed := ledger2
                  previousContent := before ++ txt ++ after },
              replaced := some txt, notices := [] }

/-- Environment for end-to-end scenario A: `img.png` resolves on the first
attempt and the gateway recognizes `"E = mc^2"`. -/
def envScenarioA : Env :=
  { resolve := fun p _ => if p = "img.png" then some p else none
    gateway := fun _ => { ok := true, text := "E = mc^2" } }

/-- Environment where the gateway returns display math `\[x\]` for
`a.png`. -/
def envScenarioDollar : Env :=
  { resolve := fun p _ => if p = "a.png" then some p else none
    gateway := fun _ => { ok := true, text := "\\[x\\]" } }

/-- Environment for end-to-end scenario B: `img.png` resolves but the
gateway responds successfully with an empty text field. -/
def envScenarioEmpty : Env :=
  { resolve := fun p _ => if p = "img.png" then some p else none
    gateway := fun _ => { ok := true, text := "" } }

/-- Environment where every path resolves and the gateway recognizes
`"X"`. -/
def envScenarioX : Env :=
  { resolve := fun _ _ => some "f"
    gateway := fun _ => { ok := true, text := "X" } }

/-! # Theorems -/

/-- Claim C1: end-to-end auto-mode scenario A.  From the initial state with
baseline `""`, enabling auto mode and editing the document to
`"![[img.png]]"` with the gateway answering `"E = mc^2"`: exactly one new
reference is submitted, the final document text is `"E = mc^2"`, the
baseline then equals that text, and a second change notification with
identical text causes no further submission. -/
theorem scenarioA_end_to_end :
    (toggleAutoOCRMode initialState (some "")).autoOCRMode = true ∧
    (dispatchEditorChange (toggleAutoOCRMode initialState (some ""))
        "note.md" "![[img.png]]" envScenarioA).submissions = ["![[img.png]]"] ∧
    (dispatchEditorChange (toggleAutoOCRMode initialState (some ""))
        "note.md" "![[img.png]]" envScenarioA).content = "E = mc^2" ∧
    (dispatchEditorChange (toggleAutoOCRMode initialState (some ""))
        "note.md" "![[img.png]]" envScenarioA).state.previousContent = "E = mc^2" ∧
    (dispatchEditorChange
        (dispatchEditorChange (toggleAutoOCRMode initialState (some ""))
          "note.md" "![[img.png]]" envScenarioA).state
        "note.md" "E = mc^2" envScenarioA).submissions = [] ∧
    (dispatchEditorChange
        (dispatchEditorChange (toggleAutoOCRMode initialState (some ""))
          "note.md" "![[img.png]]" envScenarioA).state
        "note.md" "E = mc^2" envScenarioA).content = "E = mc^2" := by
  decide

/-- Claim C3 (failing input): after toggling auto mode on and then off, the
state is Disabled and the ledger is cleared, yet the `editor-change`
registration from line 143 is still installed (`stopListeningForChanges`
never unregisters it) and `handleEditorChange` has no auto-mode guard, so a
subsequent edit introducing `"![[img.png]]"` still submits it for OCR and
rewrites the document. -/
theorem disabled_mode_still_submits :
    (toggleAutoOCRMode (toggleAutoOCRMode initialState (some "")) (some "")).autoOCRMode
        = false ∧
    (toggleAutoOCRMode (toggleAutoOCRMode initialState (some "")) (some "")).processed
        = [] ∧
    (toggleAutoOCRMode (toggleAutoOCRMode initialState (some "")) (some "")).listeners
        = 1 ∧
    (dispatchEditorChange
        (toggleAutoOCRMode (toggleAutoOCRMode initialState (some "")) (some ""))
        "note.md" "![[img.png]]" envScenarioA).submissions = ["![[img.png]]"] ∧
    (dispatchEditorChange
        (toggleAutoOCRMode (toggleAutoOCRMode initialState (some "")) (some ""))
        "note.md" "![[img.png]]" envScenarioA).content = "E = mc^2" := by
  decide

/-- Claim C2 (failing input): the write-back is JS
`String.replace(string, string)`, which interprets `$$`, `$&`, `` $` ``,
`$'` in the replacement.  For OCR text `\[x\]`, post-processing yields
`$$x$$`, but the write-back inserts `$x$` — not the recognized text
verbatim. -/
theorem writeback_collapses_dollars :
    removeBlanks "\\[x\\]" = "$$x$$" ∧
    jsReplaceFirst "![[a.png]]" "![[a.png]]" "$$x$$" = "$x$" ∧
    (handleEditorChange
        { initialState with autoOCRMode := true, listeners := 1 }
        "note.md" "![[a.png]]" envScenarioDollar).content = "$x$" ∧
    ("$x$" : String) ≠ "$$x$$" := by
  decide

/-- Claim C8: end-to-end scenario B.  When the gateway responds
successfully with an empty text field, the submission is treated as a
failure: the document is unchanged, the notice `Failed to OCR.` is emitted,
the token remains marked in the ledger, and the next change notification
with identical text submits nothing. -/
theorem scenarioB_empty_result :
    (dispatchEditorChange (toggleAutoOCRMode initialState (some ""))
        "note.md" "![[img.png]]" envScenarioEmpty).content = "![[img.png]]" ∧
    (dispatchEditorChange (toggleAutoOCRMode initialState (some ""))
        "note.md" "![[img.png]]" envScenarioEmpty).notices = ["Failed to OCR."] ∧
    "![[img.png]]" ∈ lookupSet
        (dispatchEditorChange (toggleAutoOCRMode initialState (some ""))
          "note.md" "![[img.png]]" envScenarioEmpty).state.processed "note.md" ∧
    (dispatchEditorChange
        (dispatchEditorChange (toggleAutoOCRMode initialState (some ""))
          "note.md" "![[img.png]]" envScenarioEmpty).state
        "note.md" "![[img.png]]" envScenarioEmpty).submissions = [] ∧
    (dispatchEditorChange
        (dispatchEditorChange (toggleAutoOCRMode initialState (some ""))
          "note.md" "![[img.png]]" envScenarioEmpty).state
        "note.md" "![[img.png]]" envScenarioEmpty).content = "![[img.png]]" := by
  decide

/-! ## Ledger lemmas -/

theorem lookupSet_setSet (l : Ledger) (p q : String) (s : List String) :
    lookupSet (setSet l p s) q = if p = q then s else lookupSet l q := by
  induction l with
  | nil =>
    simp only [setSet, lookupSet]
  | cons e rest ih =>
    obtain ⟨a, t⟩ := e
    simp only [setSet, lookupSet]
    by_cases hap : a = p
    · subst hap
      simp only [if_pos rfl, lookupSet]
      by_cases haq : a = q
      · subst haq; simp
      · simp [haq]
    · simp only [if_neg hap, lookupSet, ih]
      by_cases haq : a = q
      · subst haq
        simp only [if_pos rfl]
        have : ¬p = a := fun h => hap h.symm
        simp [this]
      · simp [haq]

theorem lookupSet_setSet_self (l : Ledger) (p q : String) :
    lookupSet (setSet l p (lookupSet l p)) q = lookupSet l q := by
  rw [lookupSet_setSet]
  by_cases h : p = q
  · subst h; simp
  · simp [h]

theorem checkAndMark_fst_iff (l : Ledger) (p x : String) :
    (checkAndMark l p x).1 = true ↔ x ∉ lookupSet l p := by
  by_cases h : x ∈ lookupSet l p <;> simp [checkAndMark, h]

theorem checkAndMark_of_mem (l : Ledger) (p x : String)
    (h : x ∈ lookupSet l p) : checkAndMark l p x = (false, l) := by
  simp [checkAndMark, h]

theorem checkAndMark_mem_self (l : Ledger) (p x : String) :
    x ∈ lookupSet (checkAndMark l p x).2 p := by
  by_cases h : x ∈ lookupSet l p
  · simp [checkAndMark, h]
  · simp [checkAndMark, h, lookupSet_setSet]

theorem checkAndMark_mem_mono (l : Ledger) (p q x y : String)
    (h : x ∈ lookupSet l p) : x ∈ lookupSet (checkAndMark l q y).2 p := by
  by_cases hy : y ∈ lookupSet l q
  · simpa [checkAndMark, hy] using h
  · simp only [checkAndMark, hy, if_neg, ite_false, lookupSet_setSet]
    by_cases hqp : q = p
    · subst hqp
      exact if_pos rfl ▸ List.mem_cons_of_mem _ h
    · simpa [hqp] using h

theorem runMarks_mem_mono (ops : List (String × String)) :
    ∀ (l : Ledger) (p x : String), x ∈ lookupSet l p →
      x ∈ lookupSet (runMarks l ops) p := by
  induction ops with
  | nil => intro l p x h; simpa [runMarks] using h
  | cons e rest ih =>
    intro l p x h
    obtain ⟨q, y⟩ := e
    simp only [runMarks]
    exact ih _ _ _ (checkAndMark_mem_mono l p q x y h)

/-- Claim C4: ledger dedup semantics.  The check-and-mark operation of the
change handler answers "submit" exactly when the token is not yet in the
note's set; once a pair `(p, x)` has been checked-and-marked, every later
check-and-mark of `(p, x)` — after any sequence of further operations —
answers "do not submit"; toggling auto mode off clears the whole ledger,
and on the cleared ledger the answer is "submit" again. -/
theorem ledger_submit_once_until_clear (l : Ledger) (p x : String)
    (ops : List (String × String)) (st : PluginState) (oc : Option String) :
    ((checkAndMark l p x).1 = true ↔ x ∉ lookupSet l p) ∧
    (checkAndMark (runMarks (checkAndMark l p x).2 ops) p x).1 = false ∧
    (toggleAutoOCRMode { st with autoOCRMode := true } oc).processed = [] ∧
    (checkAndMark ([] : Ledger) p x).1 = true := by
  refine ⟨checkAndMark_fst_iff l p x, ?_, ?_, ?_⟩
  · have h2 : x ∈ lookupSet (runMarks (checkAndMark l p x).2 ops) p :=
      runMarks_mem_mono ops _ p x (checkAndMark_mem_self l p x)
    rw [checkAndMark_of_mem _ _ _ h2]
  · simp [toggleAutoOCRMode]
  · simp [checkAndMark, lookupSet]

/-! ## Diff lemmas -/

theorem addedOf_diffCharsF_self :
    ∀ (fuel : Nat) (l : List Char), l.length ≤ fuel →
      addedOf (diffCharsF fuel l l) = [] := by
  intro fuel
  induction fuel with
  | zero => intro l h; simp only [diffCharsF, addedOf]
  | succ fuel ih =>
    intro l h
    match l with
    | [] => simp only [diffCharsF, addedOf]
    | a :: t =>
      simp only [diffCharsF, if_pos rfl, addedOf]
      exact ih t (by simpa [Nat.succ_le_succ_iff] using h)

theorem getAddedText_self (t : String) : getAddedText t t = "" := by
  have h : addedOf (diffChars t.data t.data) = [] := by
    apply addedOf_diffCharsF_self
    omega
  show (⟨addedOf (diffChars t.data t.data)⟩ : String) = ""
  rw [h]

/-- Claim C9: diff identity.  For every text `t` the added-text computation
on `(t, t)` returns the empty string; consequently a change notification
whose current text equals the baseline submits nothing, raises no notice,
leaves the document text unchanged, sets the baseline to the current text,
and leaves every note's recorded token set unchanged. -/
theorem diff_identity_no_submission (t path q : String) (st : PluginState)
    (env : Env) :
    getAddedText t t = "" ∧
    (handleEditorChange { st with previousContent := t } path t env).submissions
        = [] ∧
    (handleEditorChange { st with previousContent := t } path t env).notices
        = [] ∧
    (handleEditorChange { st with previousContent := t } path t env).content
        = t ∧
    (handleEditorChange { st with previousContent := t } path t env).state.previousContent
        = t ∧
    lookupSet (handleEditorChange { st with previousContent := t } path t
        env).state.processed q = lookupSet st.processed q := by
  have hadd : getAddedText t t = "" := getAddedText_self t
  refine ⟨hadd, ?_, ?_, ?_, ?_, ?_⟩ <;>
    simp [handleEditorChange, hadd, lookupSet_setSet_self]

/-! ## Bounded-retry lemmas -/

theorem waitLoop_none_iff (r : Nat → Option String) :
    ∀ (fuel a : Nat), waitLoop r fuel a = none ↔ ∀ i < fuel, r (a + i) = none := by
  intro fuel
  induction fuel with
  | zero => intro a; simp [waitLoop]
  | succ fuel ih =>
    intro a
    constructor
    · intro h i hi
      simp only [waitLoop] at h
      rcases hr : r a with _ | f
      · rw [hr] at h
        rcases i with _ | j
        · simpa using hr
        · have := (ih (a + 1)).1 h j (by omega)
          simpa [Nat.add_assoc, Nat.add_comm 1 j] using this
      · rw [hr] at h; simp at h
    · intro h
      simp only [waitLoop]
      have h0 : r a = none := by simpa using h 0 (by omega)
      rw [h0]
      exact (ih (a + 1)).2 fun j hj => by
        have := h (j + 1) (by omega)
        simpa [Nat.add_assoc, Nat.add_comm 1 j] using this

theorem waitLoop_some_first (r : Nat → Option String) :
    ∀ (fuel a : Nat) (f : String), waitLoop r fuel a = some f →
      ∃ i, i < fuel ∧ r (a + i) = some f ∧ ∀ j < i, r (a + j) = none := by
  intro fuel
  induction fuel with
  | zero => intro a f h; simp [waitLoop] at h
  | succ fuel ih =>
    intro a f h
    simp only [waitLoop] at h
    rcases hr : r a with _ | g
    · rw [hr] at h
      obtain ⟨i, hi, hfound, hprev⟩ := ih (a + 1) f h
      refine ⟨i + 1, by omega, ?_, ?_⟩
      · simpa [Nat.add_assoc, Nat.add_comm 1 i] using hfound
      · intro j hj
        rcases j with _ | k
        · simpa using hr
        · have := hprev k (by omega)
          simpa [Nat.add_assoc, Nat.add_comm 1 k] using this
    · rw [hr] at h
      simp only [Option.some.injEq] at h
      subst h
      exact ⟨0, by omega, by simpa using hr, fun j hj => by omega⟩

theorem waitLoop_congr (r r2 : Nat → Option String) :
    ∀ (fuel a : Nat), (∀ i < fuel, r (a + i) = r2 (a + i)) →
      waitLoop r fuel a = waitLoop r2 fuel a := by
  intro fuel
  induction fuel with
  | zero => intro a h; simp [waitLoop]
  | succ fuel ih =>
    intro a h
    have h0 : r a = r2 a := by simpa using h 0 (by omega)
    simp only [waitLoop, h0]
    rcases r2 a with _ | f
    · exact ih (a + 1) fun i hi => by
        have := h (i + 1) (by omega)
        simpa [Nat.add_assoc, Nat.add_comm 1 i] using this
    · rfl

/-- Claim C10: bounded resolution poll.  `waitForImageFile` consults at
most the first 10 resolution attempts (its result is unchanged by anything
the resolver does from attempt 10 on), returns `none` exactly when all 10
attempts fail, otherwise returns the first successfully resolved file; and
when resolution fails, `processImage` reports the not-found notice and
returns no replacement, so the document is not modified. -/
theorem waitForImageFile_bounded (env : Env) (imageLink imagePath : String)
    (resolve resolve2 : Nat → Option String) :
    (waitForImageFile resolve = none ↔ ∀ i < 10, resolve i = none) ∧
    (∀ f, waitForImageFile resolve = some f →
      ∃ i, i < 10 ∧ resolve i = some f ∧ ∀ j < i, resolve j = none) ∧
    ((∀ i < 10, resolve i = resolve2 i) →
      waitForImageFile resolve = waitForImageFile resolve2) ∧
    (waitForImageFile (env.resolve imagePath) = none →
      processImage env imageLink imagePath =
        (["Unable to find the image file: " ++ imagePath], none)) := by
  refine ⟨?_, ?_, ?_, ?_⟩
  · simpa using waitLoop_none_iff resolve 10 0
  · intro f h
    simpa using waitLoop_some_first resolve 10 0 f h
  · intro h
    exact waitLoop_congr resolve resolve2 10 0 (by simpa using h)
  · intro h
    simp [processImage, h]

/-- Witness for the C10 theorem at a concrete never-resolving environment:
all ten attempts fail, the poll returns `none`, and `processImage` raises
the not-found notice with no replacement. -/
theorem waitForImageFile_bounded_witness :
    waitForImageFile (fun _ => none) = none ∧
    processImage
        { resolve := fun _ _ => none
          gateway := fun _ => { ok := true, text := "T" } }
        "![[a.png]]" "a.png" = (["Unable to find the image file: a.png"], none) := by
  constructor
  · exact (waitForImageFile_bounded
        { resolve := fun _ _ => none, gateway := fun _ => { ok := true, text := "T" } }
        "![[a.png]]" "a.png" (fun _ => none) (fun _ => none)).1.mpr
      (fun i _ => rfl)
  · exact (waitForImageFile_bounded
        { resolve := fun _ _ => none, gateway := fun _ => { ok := true, text := "T" } }
        "![[a.png]]" "a.png" (fun _ => none) (fun _ => none)).2.2.2 (by decide)

/-! ## Dedup-loop lemmas -/

theorem dedupFold_not_mem (p : String) :
    ∀ (ms : List (String × String)) (l : Ledger) (t : String),
      t ∈ lookupSet l p → t ∉ (dedupFold l p ms).2.map Prod.fst := by
  intro ms
  induction ms with
  | nil => intro l t ht; simp [dedupFold]
  | cons m rest ih =>
    intro l t ht
    obtain ⟨fm, ip⟩ := m
    simp only [dedupFold]
    by_cases hb : (checkAndMark l p fm).1 = true
    · have hfm : fm ∉ lookupSet l p := (checkAndMark_fst_iff l p fm).1 hb
      have hne : t ≠ fm := fun he => hfm (he ▸ ht)
      have ht2 : t ∈ lookupSet (checkAndMark l p fm).2 p :=
        checkAndMark_mem_mono l p p t fm ht
      simp only [hb, if_true, List.map_cons, List.mem_cons]
      rintro (he | hmem)
      · exact hne he
      · exact ih _ t ht2 hmem
    · have ht2 : t ∈ lookupSet (checkAndMark l p fm).2 p :=
        checkAndMark_mem_mono l p p t fm ht
      simp only [Bool.not_eq_true] at hb
      simp only [hb, Bool.false_eq_true, if_false]
      exact ih _ t ht2

theorem dedupFold_nodup (p : String) :
    ∀ (ms : List (String × String)) (l : Ledger),
      ((dedupFold l p ms).2.map Prod.fst).Nodup := by
  intro ms
  induction ms with
  | nil => intro l; simp [dedupFold]
  | cons m rest ih =>
    intro l
    obtain ⟨fm, ip⟩ := m
    simp only [dedupFold]
    by_cases hb : (checkAndMark l p fm).1 = true
    · have hfm : fm ∈ lookupSet (checkAndMark l p fm).2 p :=
        checkAndMark_mem_self l p fm
      simp only [hb, if_true, List.map_cons, List.nodup_cons]
      exact ⟨dedupFold_not_mem p rest _ fm hfm, ih _⟩
    · simp only [Bool.not_eq_true] at hb
      simp only [hb, Bool.false_eq_true, if_false]
      exact ih _

theorem dedupFold_ledger_mono (p : String) :
    ∀ (ms : List (String × String)) (l : Ledger) (t : String),
      t ∈ lookupSet l p → t ∈ lookupSet (dedupFold l p ms).1 p := by
  intro ms
  induction ms with
  | nil => intro l t ht; simpa [dedupFold] using ht
  | cons m rest ih =>
    intro l t ht
    obtain ⟨fm, ip⟩ := m
    have ht2 : t ∈ lookupSet (checkAndMark l p fm).2 p :=
      checkAndMark_mem_mono l p p t fm ht
    simp only [dedupFold]
    by_cases hb : (checkAndMark l p fm).1 = true
    · simp only [hb, if_true]
      exact ih _ t ht2
    · simp only [Bool.not_eq_true] at hb
      simp only [hb, Bool.false_eq_true, if_false]
      exact ih _ t ht2

theorem dedupFold_submitted_mem (p : String) :
    ∀ (ms : List (String × String)) (l : Ledger) (t : String),
      t ∈ (dedupFold l p ms).2.map Prod.fst →
      t ∈ lookupSet (dedupFold l p ms).1 p := by
  intro ms
  induction ms with
  | nil => intro l t ht; simp [dedupFold] at ht
  | cons m rest ih =>
    intro l t ht
    obtain ⟨fm, ip⟩ := m
    simp only [dedupFold] at ht ⊢
    by_cases hb : (checkAndMark l p fm).1 = true
    · simp only [hb, if_true, List.map_cons, List.mem_cons] at ht ⊢
      rcases ht with he | hmem
      · subst he
        exact dedupFold_ledger_mono p rest _ t (checkAndMark_mem_self l p t)
      · exact ih _ t hmem
    · simp only [Bool.not_eq_true] at hb
      simp only [hb, Bool.false_eq_true, if_false] at ht ⊢
      exact ih _ t ht

/-- Claim C6 (counterexample): the batch command does not use a per-call
local ledger.  With `![[img.png]]` already recorded in the note's shared
set (as auto mode records it), the batch pass submits nothing and leaves
the text unchanged, even though the same call on a fresh state would have
replaced the reference. -/
theorem batch_skips_previously_marked :
    (ocrAllImagesInNote
        { autoOCRMode := false, listeners := 0,
          processed := [("n.md", ["![[img.png]]"])], previousContent := "" }
        "n.md" "![[img.png]]" envScenarioX).submissions = [] ∧
    (ocrAllImagesInNote
        { autoOCRMode := false, listeners := 0,
          processed := [("n.md", ["![[img.png]]"])], previousContent := "" }
        "n.md" "![[img.png]]" envScenarioX).content = "![[img.png]]" ∧
    (ocrAllImagesInNote initialState "n.md" "![[img.png]]" envScenarioX).content
        = "X" := by
  decide

/-- Claim C6 (amended): the batch command deduplicates against the note's
persistent shared ledger, not a per-call one: tokens already recorded (by
auto mode or an earlier batch) are skipped, no token is submitted twice in
one pass, and every token submitted in this pass is recorded in the shared
ledger afterwards. -/
theorem batch_dedup_shared_ledger (st : PluginState) (path content t : String)
    (env : Env) :
    (t ∈ lookupSet st.processed path →
      t ∉ (ocrAllImagesInNote st path content env).submissions) ∧
    (ocrAllImagesInNote st path content env).submissions.Nodup ∧
    (t ∈ (ocrAllImagesInNote st path content env).submissions →
      t ∈ lookupSet (ocrAllImagesInNote st path content env).state.processed path) := by
  refine ⟨?_, ?_, ?_⟩
  · intro ht
    have ht1 : t ∈ lookupSet (setSet st.processed path (lookupSet st.processed path)) path := by
      rw [lookupSet_setSet_self]; exact ht
    simpa only [ocrAllImagesInNote] using
      dedupFold_not_mem path (scanLinksBatch content) _ t ht1
  · simpa only [ocrAllImagesInNote] using
      dedupFold_nodup path (scanLinksBatch content)
        (setSet st.processed path (lookupSet st.processed path))
  · intro ht
    simp only [ocrAllImagesInNote] at ht ⊢
    exact dedupFold_submitted_mem path (scanLinksBatch content) _ t ht

/-- Witness for the amended C6 theorem on a concrete state whose ledger
already records `![[a.png]]`: that token is not submitted again, the
submissions of the pass are duplicate-free, and the newly submitted
`![[b.png]]` ends up recorded in the shared ledger. -/
theorem batch_dedup_shared_ledger_witness :
    "![[a.png]]" ∉ (ocrAllImagesInNote
        { autoOCRMode := false, listeners := 0,
          processed := [("n.md", ["![[a.png]]"])], previousContent := "" }
        "n.md" "![[a.png]] ![[b.png]]" envScenarioX).submissions ∧
    (ocrAllImagesInNote
        { autoOCRMode := false, listeners := 0,
          processed := [("n.md", ["![[a.png]]"])], previousContent := "" }
        "n.md" "![[a.png]] ![[b.png]]" envScenarioX).submissions.Nodup ∧
    "![[b.png]]" ∈ lookupSet (ocrAllImagesInNote
        { autoOCRMode := false, listeners := 0,
          processed := [("n.md", ["![[a.png]]"])], previousContent := "" }
        "n.md" "![[a.png]] ![[b.png]]" envScenarioX).state.processed "n.md" := by
  refine ⟨?_, ?_, ?_⟩
  · exact (batch_dedup_shared_ledger
        { autoOCRMode := false, listeners := 0,
          processed := [("n.md", ["![[a.png]]"])], previousContent := "" }
        "n.md" "![[a.png]] ![[b.png]]" "![[a.png]]" envScenarioX).1 (by decide)
  · exact (batch_dedup_shared_ledger
        { autoOCRMode := false, listeners := 0,
          processed := [("n.md", ["![[a.png]]"])], previousContent := "" }
        "n.md" "![[a.png]] ![[b.png]]" "![[a.png]]" envScenarioX).2.1
  · exact (batch_dedup_shared_ledger
        { autoOCRMode := false, listeners := 0,
          processed := [("n.md", ["![[a.png]]"])], previousContent := "" }
        "n.md" "![[a.png]] ![[b.png]]" "![[b.png]]" envScenarioX).2.2 (by decide)

/-- Claim C7 (counterexample): the single-selection command does consult
and update the ledger and the baseline.  A selection already recorded in
the note's shared set is refused (no OCR, no replacement), and on a fresh
state a successful run moves the baseline to the new text and records the
selection in the ledger. -/
theorem selection_touches_ledger_and_baseline :
    (ocrSelectedImage
        { autoOCRMode := false, listeners := 0,
          processed := [("n.md", ["![[img.png]]"])], previousContent := "" }
        "n.md" "A " "![[img.png]]" " Z" envScenarioX).replaced = none ∧
    (ocrSelectedImage
        { autoOCRMode := false, listeners := 0,
          processed := [("n.md", ["![[img.png]]"])], previousContent := "" }
        "n.md" "A " "![[img.png]]" " Z" envScenarioX).notices
        = ["This image has already been processed."] ∧
    (ocrSelectedImage initialState "n.md" "A " "![[img.png]]" " Z"
        envScenarioX).state.previousContent = "A X Z" ∧
    lookupSet (ocrSelectedImage initialState "n.md" "A " "![[img.png]]" " Z"
        envScenarioX).state.processed "n.md" = ["![[img.png]]"] := by
  decide

/-- Claim C7 (amended): the single-selection command consults and updates
the shared per-note ledger and the baseline: a selection already recorded
is refused with a notice, no OCR performed and the ledger unchanged, while
a successful run substitutes the post-processed OCR text, moves the
baseline to the resulting document text and records the selection in the
ledger. -/
theorem selection_uses_ledger_and_baseline (st : PluginState)
    (path before sel after fm ip f : String) (env : Env) :
    (sel ≠ "" → firstImageLink sel = some (fm, ip) →
      sel ∈ lookupSet st.processed path →
      (ocrSelectedImage st path before sel after env).replaced = none ∧
      (ocrSelectedImage st path before sel after env).notices
          = ["This image has already been processed."] ∧
      ∀ q, lookupSet (ocrSelectedImage st path before sel after env).state.processed q
          = lookupSet st.processed q) ∧
    (sel ≠ "" → firstImageLink sel = some (fm, ip) →
      sel ∉ lookupSet st.processed path →
      waitForImageFile (env.resolve ip) = some f →
      (env.gateway ip).ok = true → (env.gateway ip).text ≠ "" →
      (ocrSelectedImage st path before sel after env).replaced
          = some (removeBlanks (env.gateway ip).text) ∧
      (ocrSelectedImage st path before sel after env).state.previousContent
          = before ++ removeBlanks (env.gateway ip).text ++ after ∧
      sel ∈ lookupSet (ocrSelectedImage st path before sel after env).state.processed
          path) := by
  constructor
  · intro hne hfil hmem
    have hmem1 : sel ∈ lookupSet (setSet st.processed path (lookupSet st.processed path)) path := by
      rw [lookupSet_setSet_self]; exact hmem
    simp only [ocrSelectedImage, if_neg hne, hfil, hmem1, if_pos]
    exact ⟨trivial, trivial, fun q => lookupSet_setSet_self st.processed path q⟩
  · intro hne hfil hmem hwait hok htext
    have hmem1 : sel ∉ lookupSet (setSet st.processed path (lookupSet st.processed path)) path := by
      rw [lookupSet_setSet_self]; exact hmem
    have hok2 : ((env.gateway ip).ok = false) = False := by
      simp [hok]
    simp only [ocrSelectedImage, if_neg hne, hfil, hmem1, if_neg, hwait, hok2,
      if_false, htext, ite_false, not_false_iff]
    refine ⟨trivial, trivial, ?_⟩
    rw [lookupSet_setSet]
    simp

/-- Witness for the amended C7 theorem: on a ledger already holding the
selection the command refuses it, and on a fresh state it succeeds, moving
the baseline and recording the selection. -/
theorem selection_uses_ledger_and_baseline_witness :
    (ocrSelectedImage
        { autoOCRMode := false, listeners := 0,
          processed := [("n.md", ["![[c.png]]"])], previousContent := "" }
        "n.md" "A " "![[c.png]]" " Z" envScenarioX).replaced = none ∧
    (ocrSelectedImage initialState "n.md" "A " "![[c.png]]" " Z"
        envScenarioX).state.previousContent = "A X Z" ∧
    "![[c.png]]" ∈ lookupSet (ocrSelectedImage initialState "n.md" "A "
        "![[c.png]]" " Z" envScenarioX).state.processed "n.md" := by
  have h1 := (selection_uses_ledger_and_baseline
      { autoOCRMode := false, listeners := 0,
        processed := [("n.md", ["![[c.png]]"])], previousContent := "" }
      "n.md" "A " "![[c.png]]" " Z" "![[c.png]]" "c.png" "f" envScenarioX).1
      (by decide) (by decide) (by decide)
  have h2 := (selection_uses_ledger_and_baseline initialState
      "n.md" "A " "![[c.png]]" " Z" "![[c.png]]" "c.png" "f" envScenarioX).2
      (by decide) (by decide) (by decide) (by decide) (by decide) (by decide)
  refine ⟨h1.1, ?_, h2.2.2⟩
  rw [h2.2.1]
  decide

/-! ## Post-processing lemmas (claim C5)

The seven passes of `removeBlanks` run the backslash-delimiter conversions
*after* the dollar-trimming pass, so a first application can create
`$...$` pairs with untrimmed whitespace that only a second application
cleans — `removeBlanks` is not idempotent in general.  On input without
the four source-format delimiters, `removeBlanks` reduces to the trimming
pass alone, which is idempotent. -/

theorem findStop_length {stop : Char} :
    ∀ {l i r}, findStop stop l = some (i, r) → r.length < l.length := by
  intro l
  induction l with
  | nil => intro i r h; simp [findStop] at h
  | cons c t ih =>
    intro i r h
    simp only [findStop] at h
    split at h
    · simp only [Option.some.injEq, Prod.mk.injEq] at h
      obtain ⟨h1, h2⟩ := h
      subst h2
      simp only [List.length_cons]
      omega
    · split at h
      · simp at h
      · rcases hf : findStop stop t with _ | ⟨a, r2⟩
        · rw [hf] at h; simp at h
        · rw [hf] at h
          simp only [Option.some.injEq, Prod.mk.injEq] at h
          obtain ⟨h1, h2⟩ := h
          subst h2
          have := ih hf
          simp only [List.length_cons]
          omega

theorem findStop_decomp {stop : Char} :
    ∀ {l i r}, findStop stop l = some (i, r) →
      l = i ++ stop :: r ∧ ∀ c ∈ i, c ≠ stop ∧ isLineTerm c = false := by
  intro l
  induction l with
  | nil => intro i r h; simp [findStop] at h
  | cons c t ih =>
    intro i r h
    simp only [findStop] at h
    split at h
    case isTrue hc =>
      simp only [Option.some.injEq, Prod.mk.injEq] at h
      obtain ⟨h1, h2⟩ := h
      subst hc
      subst h2
      rw [← h1]
      exact ⟨rfl, by simp⟩
    case isFalse hc =>
      split at h
      · simp at h
      case isFalse hlt =>
        rcases hf : findStop stop t with _ | ⟨a, r2⟩
        · rw [hf] at h; simp at h
        · rw [hf] at h
          simp only [Option.some.injEq, Prod.mk.injEq] at h
          obtain ⟨h1, h2⟩ := h
          subst h2
          obtain ⟨hdec, hcl⟩ := ih hf
          subst h1
          constructor
          · rw [hdec]; rfl
          · intro x hx
            rcases List.mem_cons.mp hx with hxc | hxa
            · subst hxc
              exact ⟨hc, by simpa using hlt⟩
            · exact hcl x hxa

theorem findStop_append {stop : Char} :
    ∀ (m : List Char), (∀ c ∈ m, c ≠ stop ∧ isLineTerm c = false) →
      ∀ (t : List Char), findStop stop (m ++ stop :: t) = some (m, t) := by
  intro m
  induction m with
  | nil => intro h t; simp [findStop]
  | cons c m2 ih =>
    intro h t
    have hc := h c (List.mem_cons_self c m2)
    have hih := ih (fun x hx => h x (List.mem_cons_of_mem _ hx)) t
    simp only [List.cons_append, findStop, if_neg hc.1, hc.2, Bool.false_eq_true,
      if_false, List.append_eq, hih]

theorem trimDollarsF_congr :
    ∀ (f g : Nat) (l : List Char), l.length ≤ f → l.length ≤ g →
      trimDollarsF f l = trimDollarsF g l := by
  intro f
  induction f with
  | zero =>
    intro g l hf hg
    have he : l = [] := List.eq_nil_of_length_eq_zero (Nat.le_zero.mp hf)
    subst he
    cases g <;> simp [trimDollarsF]
  | succ f ih =>
    intro g l hf hg
    cases l with
    | nil => cases g <;> simp [trimDollarsF]
    | cons c rest =>
      obtain ⟨g2, rfl⟩ : ∃ g2, g = g2 + 1 := by
        rcases g with _ | g2
        · simp at hg
        · exact ⟨g2, rfl⟩
      simp only [List.length_cons] at hf hg
      simp only [trimDollarsF]
      by_cases hc : c = '$'
      · rw [if_pos hc, if_pos hc]
        rcases hfs : findStop '$' rest with _ | ⟨inner, rest2⟩
        · simp only [ih g2 rest (by omega) (by omega)]
        · have h2 := findStop_length hfs
          simp only [ih g2 rest2 (by omega) (by omega)]
      · rw [if_neg hc, if_neg hc, ih g2 rest (by omega) (by omega)]

theorem trimDollars_cons (c : Char) (rest : List Char) :
    trimDollars (c :: rest) =
      if c = '$' then
        match findStop '$' rest with
        | some (inner, rest2) => '$' :: (trim inner ++ '$' :: trimDollars rest2)
        | none => '$' :: trimDollars rest
      else c :: trimDollars rest := by
  show trimDollarsF ((c :: rest).length) (c :: rest) = _
  simp only [List.length_cons, trimDollarsF]
  by_cases hc : c = '$'
  · rw [if_pos hc, if_pos hc]
    rcases hfs : findStop '$' rest with _ | ⟨inner, rest2⟩
    · rfl
    · show '$' :: (trim inner ++ '$' :: trimDollarsF rest.length rest2)
        = '$' :: (trim inner ++ '$' :: trimDollars rest2)
      have h2 := findStop_length hfs
      rw [trimDollarsF_congr rest.length rest2.length rest2 (by omega) (le_refl _)]
      rfl
  · rw [if_neg hc, if_neg hc]
    rfl

theorem dropWhile_idem (p : Char → Bool) (l : List Char) :
    List.dropWhile p (List.dropWhile p l) = List.dropWhile p l := by
  rcases hd : List.dropWhile p l with _ | ⟨c, t⟩
  · simp
  · have hne : List.dropWhile p l ≠ [] := by rw [hd]; simp
    have hc := List.head_dropWhile_not p l hne
    simp only [hd, List.head_cons] at hc
    simp [List.dropWhile_cons, hc]

theorem dropWhile_trimEnd (p : Char → Bool) (m : List Char)
    (h : List.dropWhile p m = m) :
    List.dropWhile p ((List.dropWhile p m.reverse).reverse)
      = (List.dropWhile p m.reverse).reverse := by
  cases m with
  | nil => simp
  | cons c t =>
    have hc : p c = false := by
      by_contra hpc
      simp only [Bool.not_eq_false] at hpc
      rw [List.dropWhile_cons, hpc, if_pos rfl] at h
      have hlen := congrArg List.length h
      have hle : (List.dropWhile p t).length ≤ t.length :=
        (List.dropWhile_sublist p).length_le
      simp only [List.length_cons] at hlen
      omega
    rw [List.reverse_cons, List.dropWhile_append]
    by_cases he : (List.dropWhile p t.reverse).isEmpty
    · rw [if_pos he]
      simp [List.dropWhile_cons, hc]
    · rw [if_neg he]
      rw [List.reverse_append]
      simp [List.dropWhile_cons, hc]

theorem trim_idem (l : List Char) : trim (trim l) = trim l := by
  have h1 : List.dropWhile isJSWS (List.dropWhile isJSWS l)
      = List.dropWhile isJSWS l := dropWhile_idem isJSWS l
  have h2 : List.dropWhile isJSWS (trim l) = trim l := by
    unfold trim
    exact dropWhile_trimEnd isJSWS (List.dropWhile isJSWS l) h1
  show ((List.dropWhile isJSWS (trim l)).reverse.dropWhile isJSWS).reverse = trim l
  rw [h2]
  show (((List.dropWhile isJSWS l).reverse.dropWhile isJSWS).reverse.reverse.dropWhile
      isJSWS).reverse = trim l
  rw [List.reverse_reverse, dropWhile_idem]
  rfl

theorem trim_mem (l : List Char) (c : Char) (h : c ∈ trim l) : c ∈ l := by
  unfold trim at h
  rw [List.mem_reverse] at h
  have h2 := (List.dropWhile_sublist isJSWS).subset h
  rw [List.mem_reverse] at h2
  exact (List.dropWhile_sublist isJSWS).subset h2

theorem findStop_none_trimDollars :
    ∀ (n : Nat) (l : List Char), l.length ≤ n → findStop '$' l = none →
      findStop '$' (trimDollars l) = none := by
  intro n
  induction n with
  | zero =>
    intro l hl h
    have he : l = [] := List.eq_nil_of_length_eq_zero (Nat.le_zero.mp hl)
    subst he
    exact h
  | succ n ih =>
    intro l hl h
    cases l with
    | nil => exact h
    | cons c rest =>
      by_cases hc : c = '$'
      · subst hc; simp [findStop] at h
      · rw [trimDollars_cons, if_neg hc]
        simp only [findStop, if_neg hc] at h ⊢
        by_cases hlt : isLineTerm c = true
        · rw [if_pos hlt]
        · rw [if_neg hlt] at h ⊢
          rcases hf : findStop '$' rest with _ | pr
          · simp only [List.length_cons] at hl
            rw [ih rest (by omega) hf]
          · rw [hf] at h; simp at h

theorem trimDollars_idem (l : List Char) :
    trimDollars (trimDollars l) = trimDollars l := by
  have main : ∀ (n : Nat) (l : List Char), l.length ≤ n →
      trimDollars (trimDollars l) = trimDollars l := by
    intro n
    induction n with
    | zero =>
      intro l hl
      have he : l = [] := List.eq_nil_of_length_eq_zero (Nat.le_zero.mp hl)
      subst he
      rfl
    | succ n ih =>
      intro l hl
      cases l with
      | nil => rfl
      | cons c rest =>
        simp only [List.length_cons] at hl
        by_cases hc : c = '$'
        · subst hc
          rcases hfs : findStop '$' rest with _ | ⟨inner, rest2⟩
          · rw [trimDollars_cons, if_pos rfl]
            simp only [hfs]
            rw [trimDollars_cons, if_pos rfl]
            rw [findStop_none_trimDollars rest.length rest (le_refl _) hfs]
            simp only
            rw [ih rest (by omega)]
          · rw [trimDollars_cons, if_pos rfl]
            simp only [hfs]
            rw [trimDollars_cons, if_pos rfl]
            obtain ⟨hdec, hcl⟩ := findStop_decomp hfs
            have hclean : ∀ x ∈ trim inner, x ≠ '$' ∧ isLineTerm x = false :=
              fun x hx => hcl x (trim_mem inner x hx)
            rw [findStop_append (trim inner) hclean (trimDollars rest2)]
            simp only
            have hlen := findStop_length hfs
            rw [trim_idem, ih rest2 (by omega)]
        · rw [trimDollars_cons, if_neg hc, trimDollars_cons, if_neg hc,
            ih rest (by omega)]
  exact main l.length l (le_refl _)

theorem hasDelim_cons (c : Char) (rest : List Char) :
    hasDelim (c :: rest) = (headDelim c rest || hasDelim rest) := rfl

theorem hasDelim_tail {c : Char} {rest : List Char}
    (h : hasDelim (c :: rest) = false) : hasDelim rest = false := by
  rw [hasDelim_cons, Bool.or_eq_false_iff] at h
  exact h.2

theorem hasDelim_headDelim {c : Char} {rest : List Char}
    (h : hasDelim (c :: rest) = false) : headDelim c rest = false := by
  rw [hasDelim_cons, Bool.or_eq_false_iff] at h
  exact h.1

theorem headDelim_nil (c : Char) : headDelim c [] = false := by
  simp [headDelim]

theorem headDelim_of_ne {c : Char} (rest : List Char) (h : c ≠ '\\') :
    headDelim c rest = false := by
  simp [headDelim, h]

theorem headDelim_of_nonbracket (c d : Char) (t : List Char)
    (h : isBracket d = false) : headDelim c (d :: t) = false := by
  simp [headDelim, h]

theorem headDelim_backslash_cons (d : Char) (t : List Char) :
    headDelim '\\' (d :: t) = isBracket d := by
  simp [headDelim]

theorem headDelim_congr_head (c : Char) {r1 r2 : List Char}
    (h : r1.head? = r2.head?) : headDelim c r1 = headDelim c r2 := by
  cases r1 with
  | nil =>
    cases r2 with
    | nil => rfl
    | cons d t => simp at h
  | cons d t =>
    cases r2 with
    | nil => simp at h
    | cons e u =>
      simp only [List.head?_cons, Option.some.injEq] at h
      subst h
      rfl

theorem hasDelim_append_right :
    ∀ (a b : List Char), hasDelim (a ++ b) = false → hasDelim b = false := by
  intro a
  induction a with
  | nil => intro b h; exact h
  | cons c a2 ih =>
    intro b h
    exact ih b (hasDelim_tail h)

theorem hasDelim_append_left :
    ∀ (a b : List Char), hasDelim (a ++ b) = false → hasDelim a = false := by
  intro a
  induction a with
  | nil => intro b h; rfl
  | cons c a2 ih =>
    intro b h
    have h2 := ih b (hasDelim_tail h)
    rw [hasDelim_cons, Bool.or_eq_false_iff]
    refine ⟨?_, h2⟩
    have h1 : headDelim c (a2 ++ b) = false := hasDelim_headDelim h
    have hh : (a2 ++ b).head? = a2.head? ∨ a2 = [] := by
      cases a2 with
      | nil => right; rfl
      | cons d t => left; rfl
    rcases hh with hh | hh
    · rw [headDelim_congr_head c hh] at h1
      exact h1
    · subst hh
      exact headDelim_nil c

theorem hasDelim_append_dollar :
    ∀ (a m : List Char), hasDelim a = false → hasDelim m = false →
      hasDelim (a ++ '$' :: m) = false := by
  intro a
  induction a with
  | nil =>
    intro m _ hm
    rw [List.nil_append, hasDelim_cons, headDelim_of_ne _ (by decide),
      Bool.false_or]
    exact hm
  | cons c a2 ih =>
    intro m ha hm
    have h2 := ih m (hasDelim_tail ha) hm
    rw [List.cons_append, hasDelim_cons, Bool.or_eq_false_iff]
    refine ⟨?_, h2⟩
    cases a2 with
    | nil =>
      exact headDelim_of_nonbracket c '$' m (by decide)
    | cons d t =>
      have h1 : headDelim c (d :: t) = false := hasDelim_headDelim ha
      rwa [headDelim_congr_head c (show ((d :: t) ++ '$' :: m).head? = (d :: t).head? from rfl)]

theorem hasDelim_trim (i : List Char) (h : hasDelim i = false) :
    hasDelim (trim i) = false := by
  have h1 : hasDelim (List.dropWhile isJSWS i) = false := by
    apply hasDelim_append_right (List.takeWhile isJSWS i)
    rw [List.takeWhile_append_dropWhile]
    exact h
  have h2 : (List.dropWhile isJSWS i)
      = trim i ++ (List.takeWhile isJSWS (List.dropWhile isJSWS i).reverse).reverse := by
    conv_lhs =>
      rw [← List.reverse_reverse (List.dropWhile isJSWS i),
        ← List.takeWhile_append_dropWhile isJSWS (List.dropWhile isJSWS i).reverse]
    rw [List.reverse_append]
    rfl
  exact hasDelim_append_left _ _ (h2 ▸ h1)

theorem trimDollars_head (l : List Char) :
    (trimDollars l).head? = l.head? ∨ (trimDollars l).head? = some '$' := by
  cases l with
  | nil => left; rfl
  | cons c rest =>
    rw [trimDollars_cons]
    by_cases hc : c = '$'
    · subst hc
      rw [if_pos rfl]
      rcases hfs : findStop '$' rest with _ | ⟨inner, rest2⟩ <;> simp
    · rw [if_neg hc]
      left
      rfl

theorem hasDelim_trimDollars :
    ∀ (n : Nat) (l : List Char), l.length ≤ n → hasDelim l = false →
      hasDelim (trimDollars l) = false := by
  intro n
  induction n with
  | zero =>
    intro l hl h
    have he : l = [] := List.eq_nil_of_length_eq_zero (Nat.le_zero.mp hl)
    subst he
    exact h
  | succ n ih =>
    intro l hl h
    cases l with
    | nil => exact h
    | cons c rest =>
      simp only [List.length_cons] at hl
      by_cases hc : c = '$'
      · subst hc
        rcases hfs : findStop '$' rest with _ | ⟨inner, rest2⟩
        · rw [trimDollars_cons, if_pos rfl]
          simp only [hfs]
          have hr := ih rest (by omega) (hasDelim_tail h)
          rw [hasDelim_cons, headDelim_of_ne _ (by decide), Bool.false_or]
          exact hr
        · rw [trimDollars_cons, if_pos rfl]
          simp only [hfs]
          obtain ⟨hdec, _⟩ := findStop_decomp hfs
          have hrest : hasDelim rest = false := hasDelim_tail h
          rw [hdec] at hrest
          have hinner : hasDelim inner = false := hasDelim_append_left _ _ hrest
          have hdol : hasDelim ('$' :: rest2) = false := hasDelim_append_right _ _ hrest
          have hrest2 : hasDelim rest2 = false := hasDelim_tail hdol
          have hlen := findStop_length hfs
          have htr2 : hasDelim (trimDollars rest2) = false := ih rest2 (by omega) hrest2
          have hti : hasDelim (trim inner) = false := hasDelim_trim inner hinner
          have hbody : hasDelim (trim inner ++ '$' :: trimDollars rest2) = false :=
            hasDelim_append_dollar _ _ hti htr2
          rw [hasDelim_cons, headDelim_of_ne _ (by decide), Bool.false_or]
          exact hbody
      · rw [trimDollars_cons, if_neg hc]
        have hr := ih rest (by omega) (hasDelim_tail h)
        rw [hasDelim_cons, Bool.or_eq_false_iff]
        refine ⟨?_, hr⟩
        rcases trimDollars_head rest with hh | hh
        · rw [headDelim_congr_head c hh]
          exact hasDelim_headDelim h
        · rcases htd : trimDollars rest with _ | ⟨d, t⟩
          · exact headDelim_nil c
          · rw [htd] at hh
            simp only [List.head?_cons, Option.some.injEq] at hh
            subst hh
            exact headDelim_of_nonbracket c '$' t (by decide)

theorem repOpenBracket_id :
    ∀ (l : List Char), hasDelim l = false → repOpenBracket l = l := by
  intro l
  induction l using repOpenBracket.induct with
  | case1 rest ih =>
    intro h
    have h1 := hasDelim_headDelim h
    rw [headDelim_backslash_cons] at h1
    exact absurd h1 (by decide)
  | case2 c rest hne ih =>
    intro h
    rw [repOpenBracket.eq_2 c rest hne, ih (hasDelim_tail h)]
  | case3 =>
    intro h
    rfl

theorem repCloseBracket_id :
    ∀ (l : List Char), hasDelim l = false → repCloseBracket l = l := by
  intro l
  induction l using repCloseBracket.induct with
  | case1 rest ih =>
    intro h
    have h1 := hasDelim_headDelim h
    rw [headDelim_backslash_cons] at h1
    exact absurd h1 (by decide)
  | case2 c rest hne ih =>
    intro h
    rw [repCloseBracket.eq_2 c rest hne, ih (hasDelim_tail h)]
  | case3 =>
    intro h
    rfl

theorem repOpenParen_id :
    ∀ (l : List Char), hasDelim l = false → repOpenParen l = l := by
  intro l
  induction l using repOpenParen.induct with
  | case1 rest ih =>
    intro h
    have h1 := hasDelim_headDelim h
    rw [headDelim_backslash_cons] at h1
    exact absurd h1 (by decide)
  | case2 c rest hne ih =>
    intro h
    rw [repOpenParen.eq_2 c rest hne, ih (hasDelim_tail h)]
  | case3 =>
    intro h
    rfl

theorem repCloseParen_id :
    ∀ (l : List Char), hasDelim l = false → repCloseParen l = l := by
  intro l
  induction l using repCloseParen.induct with
  | case1 rest ih =>
    intro h
    have h1 := hasDelim_headDelim h
    rw [headDelim_backslash_cons] at h1
    exact absurd h1 (by decide)
  | case2 c rest hne ih =>
    intro h
    rw [repCloseParen.eq_2 c rest hne, ih (hasDelim_tail h)]
  | case3 =>
    intro h
    rfl

theorem repOpenParenWSF_id :
    ∀ (fuel : Nat) (l : List Char), hasDelim l = false →
      repOpenParenWSF fuel l = l := by
  intro fuel l
  induction fuel, l using repOpenParenWSF.induct with
  | case1 l => intro h; rfl
  | case2 n => intro h; rfl
  | case3 fuel c rest hws ih =>
    intro h
    have h1 := hasDelim_headDelim h
    rw [headDelim_backslash_cons] at h1
    exact absurd h1 (by decide)
  | case4 fuel c rest hws ih =>
    intro h
    have h1 := hasDelim_headDelim h
    rw [headDelim_backslash_cons] at h1
    exact absurd h1 (by decide)
  | case5 fuel c rest hne ih =>
    intro h
    rw [repOpenParenWSF.eq_4 fuel c rest hne, ih (hasDelim_tail h)]

theorem repWSCloseParenF_id :
    ∀ (fuel : Nat) (l : List Char), hasDelim l = false →
      repWSCloseParenF fuel l = l := by
  intro fuel l
  induction fuel, l using repWSCloseParenF.induct with
  | case1 l => intro h; rfl
  | case2 n => intro h; rfl
  | case3 fuel c rest hws ih =>
    intro h
    have h1 := hasDelim_headDelim (hasDelim_tail h)
    rw [headDelim_backslash_cons] at h1
    exact absurd h1 (by decide)
  | case4 fuel c rest hws ih =>
    intro h
    have h1 := hasDelim_headDelim (hasDelim_tail h)
    rw [headDelim_backslash_cons] at h1
    exact absurd h1 (by decide)
  | case5 fuel c rest hne ih =>
    intro h
    rw [repWSCloseParenF.eq_4 fuel c rest hne, ih (hasDelim_tail h)]

theorem removeBlanksL_eq_trimDollars (l : List Char) (h : hasDelim l = false) :
    removeBlanksL l = trimDollars l := by
  have h1 : hasDelim (trimDollars l) = false :=
    hasDelim_trimDollars l.length l (le_refl _) h
  unfold removeBlanksL
  rw [repOpenBracket_id _ h1, repCloseBracket_id _ h1]
  show repCloseParen (repOpenParen (repWSCloseParenF _ (repOpenParenWSF _ (trimDollars l)))) = _
  rw [repOpenParenWSF_id _ _ h1, repWSCloseParenF_id _ _ h1,
    repOpenParen_id _ h1, repCloseParen_id _ h1]

/-- Claim C5 (counterexample): `removeBlanks` is not idempotent.  On
`\(  x\)` (two spaces inside the parenthesis delimiters) the first
application yields `$ x$` — the delimiter conversion runs after the
dollar-trimming pass, so the leftover space survives — and the second
application trims it to `$x$`. -/
theorem removeBlanks_not_idempotent :
    removeBlanks "\\(  x\\)" = "$ x$" ∧
    removeBlanks (removeBlanks "\\(  x\\)") = "$x$" ∧
    removeBlanks (removeBlanks "\\(  x\\)") ≠ removeBlanks "\\(  x\\)" := by
  decide

/-- Claim C5 (amended): `removeBlanks` is idempotent on every string that
contains none of the four source-format delimiters `\[`, `\]`, `\(`, `\)`
(in particular on any text with no remaining source-format delimiters, as
the second application always sees).  On such input the transform is the
dollar-trimming pass alone, which is idempotent. -/
theorem removeBlanks_idem_of_no_delim (s : String)
    (h : hasDelim s.data = false) :
    removeBlanks (removeBlanks s) = removeBlanks s := by
  show (⟨removeBlanksL (removeBlanksL s.data)⟩ : String) = ⟨removeBlanksL s.data⟩
  rw [removeBlanksL_eq_trimDollars s.data h]
  have h1 : hasDelim (trimDollars s.data) = false :=
    hasDelim_trimDollars s.data.length s.data (le_refl _) h
  rw [removeBlanksL_eq_trimDollars _ h1, trimDollars_idem]

/-- Witness for the amended C5 theorem at a concrete delimiter-free input
with untrimmed math: one application normalizes `$ a $ and $$b $$`, and a
second application leaves the result unchanged. -/
theorem removeBlanks_idem_of_no_delim_witness :
    hasDelim ("$ a $ and $$b $$" : String).data = false ∧
    removeBlanks (removeBlanks "$ a $ and $$b $$")
      = removeBlanks "$ a $ and $$b $$" :=
  ⟨by decide, removeBlanks_idem_of_no_delim "$ a $ and $$b $$" (by decide)⟩

end OCR
